import Mathlib

/-!
AnyScope — verification of the frame-analysis and scope-rendering pipeline

Shallow embedding of `src/scopes.js` (class `VideoScopes`) together with the
scope-toggle handler of `src/app.js`.  A pixel buffer is a row-major RGBA byte
list; JavaScript double arithmetic is modelled by exact rational arithmetic.
An out-of-range buffer read yields `none` (JavaScript `undefined`, which
propagates to `NaN` through arithmetic and leaves the histogram's 256 buckets
untouched, since `hist[NaN]++` writes a stray property outside the buckets).
-/

namespace AnyScope

/-- JavaScript `Math.round` on an exact rational: round half toward `+∞`. -/
def jsRound (q : ℚ) : ℤ := ⌊q + 1/2⌋

/-- Rec. 709 luminance, `scopes.js` line 70:
`Math.round(0.2126 * r + 0.7152 * g + 0.0722 * b)` in exact arithmetic.
The coefficients have four decimal digits, so the rounded value is
`(2126*r + 7152*g + 722*b + 5000) / 10000`; agreement with the literal
rational transcription `lumReal` is proved in `claim4_luminance_formula`. -/
def luminance (r g b : ℕ) : ℕ := (2126 * r + 7152 * g + 722 * b + 5000) / 10000

/-- Literal transcription of `scopes.js` line 70 over ℚ. -/
def lumReal (r g b : ℕ) : ℤ := jsRound ((0.2126 : ℚ) * r + 0.7152 * g + 0.0722 * b)

/-- Luminance of possibly-undefined channel reads: any `undefined` channel
makes the rounded luminance `NaN` (modelled as `none`). -/
def lumOf : Option ℕ → Option ℕ → Option ℕ → Option ℕ
  | some r, some g, some b => some (luminance r g b)
  | _, _, _ => none

/-- `cb = 128 + (-0.168736 * r - 0.331264 * g + 0.5 * b)`, `scopes.js` line 87. -/
def cbOf : Option ℕ → Option ℕ → Option ℕ → Option ℚ
  | some r, some g, some b => some (128 + (-0.168736 * (r : ℚ) - 0.331264 * (g : ℚ) + 0.5 * (b : ℚ)))
  | _, _, _ => none

/-- `cr = 128 + (0.5 * r - 0.418688 * g - 0.081312 * b)`, `scopes.js` line 88. -/
def crOf : Option ℕ → Option ℕ → Option ℕ → Option ℚ
  | some r, some g, some b => some (128 + (0.5 * (r : ℚ) - 0.418688 * (g : ℚ) - 0.081312 * (b : ℚ)))
  | _, _, _ => none

/-- One element of `colorPoints` (`scopes.js` line 89). -/
structure ColorPoint where
  cb : Option ℚ
  cr : Option ℚ
  r : Option ℕ
  g : Option ℕ
  b : Option ℕ
  deriving DecidableEq

/-- `array[i]++` on a JavaScript numeric array (in-range index). -/
def bump (l : List ℕ) (i : ℕ) : List ℕ := l.set i (l.getD i 0 + 1)

/-- `hist[v]++` where `v` may be `NaN`/`undefined`: a non-numeric key writes a
stray property outside the 256 buckets, leaving the bucket array unchanged. -/
def bumpO (l : List ℕ) : Option ℕ → List ℕ
  | some i => bump l i
  | none => l

/-- `cols[j].push(v)` on an array of arrays. -/
def pushAt (cols : List (List α)) (j : ℕ) (v : α) : List (List α) :=
  cols.set j (cols.getD j [] ++ [v])

/-- Red channel read of raster pixel `n`: `data[4n]` (`scopes.js` line 65). -/
def readR (data : List ℕ) (n : ℕ) : Option ℕ := data.get? (4 * n)

/-- Green channel read: `data[4n + 1]` (`scopes.js` line 66). -/
def readG (data : List ℕ) (n : ℕ) : Option ℕ := data.get? (4 * n + 1)

/-- Blue channel read: `data[4n + 2]` (`scopes.js` line 67). -/
def readB (data : List ℕ) (n : ℕ) : Option ℕ := data.get? (4 * n + 2)

/-- The `{cb, cr, r, g, b}` tuple pushed for a sampled pixel (`scopes.js`
lines 86–89). -/
def samplePoint (data : List ℕ) (n : ℕ) : ColorPoint :=
  { cb := cbOf (readR data n) (readG data n) (readB data n)
    cr := crOf (readR data n) (readG data n) (readB data n)
    r := readR data n
    g := readG data n
    b := readB data n }

/-- `vectorSampleRate = Math.max(1, Math.floor((width * height) / 50000))`
(`scopes.js` line 60). -/
def vectorSampleRate (w h : ℕ) : ℕ := max 1 (w * h / 50000)

/-- The record returned by `calculateScopeData` (`scopes.js` lines 100–105);
`rgbColumns` is flattened into its three channel fields. -/
structure Analysis where
  luminance : List (List (Option ℕ))
  rgbR : List (List (Option ℕ))
  rgbG : List (List (Option ℕ))
  rgbB : List (List (Option ℕ))
  colorPoints : List ColorPoint
  histR : List ℕ
  histG : List ℕ
  histB : List ℕ
  histLum : List ℕ

/-- The freshly initialised accumulators of `calculateScopeData`
(`scopes.js` lines 45–57). -/
def initAnalysis (w : ℕ) : Analysis :=
  { luminance := List.replicate w []
    rgbR := List.replicate (w / 3) []
    rgbG := List.replicate (w / 3) []
    rgbB := List.replicate (w / 3) []
    colorPoints := []
    histR := List.replicate 256 0
    histG := List.replicate 256 0
    histB := List.replicate 256 0
    histLum := List.replicate 256 0 }

/-- Body of the pixel loop (`scopes.js` lines 62–97) for raster index
`n = y*width + x` (so `x = n % w`); each accumulator is updated exactly once
per pixel and no update reads another accumulator, so the interleaved
statements are regrouped field-wise. -/
def scanStep (data : List ℕ) (w rate : ℕ) (a : Analysis) (n : ℕ) : Analysis :=
  let x := n % w
  let r := readR data n
  let g := readG data n
  let b := readB data n
  let lum := lumOf r g b
  let paradeX := x / 3
  { luminance := pushAt a.luminance x lum
    rgbR := if paradeX < w / 3 then pushAt a.rgbR paradeX r else a.rgbR
    rgbG := if paradeX < w / 3 then pushAt a.rgbG paradeX g else a.rgbG
    rgbB := if paradeX < w / 3 then pushAt a.rgbB paradeX b else a.rgbB
    colorPoints := if n % rate = 0 then a.colorPoints ++ [samplePoint data n] else a.colorPoints
    histR := bumpO a.histR r
    histG := bumpO a.histG g
    histB := bumpO a.histB b
    histLum := bumpO a.histLum lum }

/-- `calculateScopeData` (`scopes.js` lines 44–106): the nested `y`/`x` loops
visit raster indices `0, 1, …, w*h - 1` in order. -/
def calculateScopeData (data : List ℕ) (w h : ℕ) : Analysis :=
  (List.range (w * h)).foldl (scanStep data w (vectorSampleRate w h)) (initAnalysis w)

/-- The four scopes. -/
inductive ScopeKind
  | waveform
  | parade
  | vectorscope
  | histogram
  deriving DecidableEq

/-- The renderers `analyze` invokes (`scopes.js` lines 34–38): all four,
unconditionally — no visibility state is consulted. -/
def analyzeRenderers : List ScopeKind :=
  [.waveform, .parade, .vectorscope, .histogram]

/-- `analyze` (`scopes.js` lines 26–39): derives the scope data from the
image buffer and dimensions, then invokes all four renderers. -/
def analyze (data : List ℕ) (width height : ℕ) : Analysis × List ScopeKind :=
  (calculateScopeData data width height, analyzeRenderers)

/-- Per-scope container CSS state owned by `app.js`. -/
structure UIState where
  hidden : ScopeKind → Bool

/-- Checkbox change handler installed by `initScopeToggles` (`app.js` lines
226–240): sets the container's `hidden` class to the negation of the checkbox
state; it touches neither renderer dispatch nor analyzer state. -/
def toggleScope (ui : UIState) (s : ScopeKind) (checked : Bool) : UIState :=
  ⟨fun t => if t = s then !checked else ui.hidden t⟩

/-- One RGBA output pixel. -/
structure Pix where
  r : ℕ
  g : ℕ
  b : ℕ
  a : ℕ
  deriving DecidableEq

/-- Background pixel placeholder. -/
def defaultPix : Pix := ⟨0, 0, 0, 255⟩

/-- Maximum-intensity scan (`scopes.js` lines 145–150, 214–219, 296–301):
starts at 1 and replaces it by every strictly larger cell value. -/
def maxIntensity (m : List ℕ) : ℕ :=
  m.foldl (fun acc v => if acc < v then v else acc) 1

/-- Waveform phosphor ramp (`scopes.js` lines 158–161). -/
def waveRamp (t : ℚ) : Pix :=
  ⟨(⌊t * 150⌋).toNat, (⌊t * 255⌋).toNat, (⌊t * 100⌋).toNat, 255⟩

/-- Vectorscope phosphor ramp (`scopes.js` lines 309–312). -/
def vsRamp (t : ℚ) : Pix :=
  ⟨(⌊t * 100⌋).toNat, (⌊t * 255⌋).toNat, (⌊t * 200⌋).toNat, 255⟩

/-- Waveform normalize-and-colorize loop (`scopes.js` lines 152–163):
each non-zero cell gets the phosphor colour at `min(1, (v/max) * 8)`;
zero cells keep the existing background pixel. -/
def renderWaveformPixels (m : List ℕ) (bg : List Pix) : List Pix :=
  (List.range m.length).foldl
    (fun px i =>
      if 0 < m.getD i 0 then
        px.set i (waveRamp (min 1 ((m.getD i 0 : ℚ) / (maxIntensity m : ℚ) * 8)))
      else px)
    bg

/-- Vectorscope normalize-and-colorize loop (`scopes.js` lines 303–314):
gain 10, cyan/green ramp. -/
def renderVectorscopePixels (m : List ℕ) (bg : List Pix) : List Pix :=
  (List.range m.length).foldl
    (fun px i =>
      if 0 < m.getD i 0 then
        px.set i (vsRamp (min 1 ((m.getD i 0 : ℚ) / (maxIntensity m : ℚ) * 10)))
      else px)
    bg

/-- Waveform/parade column x-coordinate
`Math.floor((col / columns.length) * width)` (`scopes.js` lines 129, 200). -/
def plotX (col cols cw : ℕ) : ℤ := ⌊((col : ℚ) / (cols : ℚ)) * (cw : ℚ)⌋

/-- Waveform/parade plotted y-coordinate
`Math.floor(height - 1 - (v / 255) * (height - 1))` (`scopes.js` lines 133, 203). -/
def plotY (v ch : ℕ) : ℤ := ⌊(ch : ℚ) - 1 - ((v : ℚ) / 255) * ((ch : ℚ) - 1)⌋

/-- Bounds guard of the plotting loops (`scopes.js` lines 134, 204). -/
def plotGuard (x y : ℤ) (cw ch : ℕ) : Bool :=
  decide (0 ≤ y) && decide (y < (ch : ℤ)) && decide (0 ≤ x) && decide (x < (cw : ℤ))

/-- Vectorscope centre `size / 2` (`scopes.js` line 258). -/
def vsCenter (size : ℕ) : ℚ := (size : ℚ) / 2

/-- Vectorscope radius `size / 2 - 20` (`scopes.js` line 259). -/
def vsRadius (size : ℕ) : ℚ := (size : ℚ) / 2 - 20

/-- `Math.floor(center + ((cb - 128) / 128) * radius)` (`scopes.js` lines 274, 277). -/
def vsPx (size : ℕ) (cb : ℚ) : ℤ := ⌊vsCenter size + ((cb - 128) / 128) * vsRadius size⌋

/-- `Math.floor(center - ((cr - 128) / 128) * radius)` (`scopes.js` lines 275, 278). -/
def vsPy (size : ℕ) (cr : ℚ) : ℤ := ⌊vsCenter size - ((cr - 128) / 128) * vsRadius size⌋

/-- One guarded cell increment of the stamp loop (`scopes.js` lines 283–287). -/
def stampCell (size : ℕ) (m : List ℕ) (pX pY : ℤ) : List ℕ :=
  if 0 ≤ pX ∧ pX < (size : ℤ) ∧ 0 ≤ pY ∧ pY < (size : ℤ) then
    bump m (pY * (size : ℤ) + pX).toNat
  else m

/-- The 3×3 offsets `(dy, dx)` in loop order (`scopes.js` lines 281–282). -/
def stampOffsets : List (ℤ × ℤ) :=
  [(-1, -1), (-1, 0), (-1, 1), (0, -1), (0, 0), (0, 1), (1, -1), (1, 0), (1, 1)]

/-- Stamp one colour point into the intensity map (`scopes.js` lines 271–290).
A point with `NaN` chroma (`none`) plots nothing: `Math.floor(NaN)` is `NaN`
and every bounds comparison on `NaN` is false. -/
def stampPoint (size : ℕ) (m : List ℕ) (p : ColorPoint) : List ℕ :=
  match p.cb, p.cr with
  | some cb, some cr =>
      stampOffsets.foldl
        (fun m' o => stampCell size m' (vsPx size cb + o.2) (vsPy size cr + o.1)) m
  | _, _ => m

section ListHelpers

variable {α : Type*}

lemma getD_set_self {l : List α} {i : ℕ} (v d : α) (h : i < l.length) :
    (l.set i v).getD i d = v := by
  simp [List.getD_eq_getElem?_getD, List.getElem?_set_eq_of_lt v h]

lemma getD_set_ne {l : List α} {i j : ℕ} (v d : α) (h : i ≠ j) :
    (l.set i v).getD j d = l.getD j d := by
  simp [List.getD_eq_getElem?_getD, List.getElem?_set_ne h]

lemma getD_of_length_le {l : List α} {j : ℕ} (d : α) (h : l.length ≤ j) :
    l.getD j d = d := by
  simp [List.getD_eq_getElem?_getD, List.getElem?_eq_none h]

lemma getD_replicate {n j : ℕ} {x d : α} (h : j < n) :
    (List.replicate n x).getD j d = x := by
  simp [List.getD_eq_getElem?_getD, List.getElem?_replicate, h]

end ListHelpers

lemma pushAt_length {α : Type*} (cols : List (List α)) (j : ℕ) (v : α) :
    (pushAt cols j v).length = cols.length := List.length_set ..

lemma getD_pushAt_self {α : Type*} {cols : List (List α)} {j : ℕ} (v : α)
    (h : j < cols.length) : (pushAt cols j v).getD j [] = cols.getD j [] ++ [v] :=
  getD_set_self _ _ h

lemma getD_pushAt_ne {α : Type*} {cols : List (List α)} {i j : ℕ} (v : α)
    (h : i ≠ j) : (pushAt cols i v).getD j [] = cols.getD j [] :=
  getD_set_ne _ _ h

lemma bump_length (l : List ℕ) (i : ℕ) : (bump l i).length = l.length :=
  List.length_set ..

lemma bumpO_length (l : List ℕ) (o : Option ℕ) : (bumpO l o).length = l.length := by
  cases o <;> simp [bumpO, bump]

lemma bump_sum {l : List ℕ} {i : ℕ} (h : i < l.length) :
    (bump l i).sum = l.sum + 1 := by
  induction l generalizing i with
  | nil => simp at h
  | cons a t ih =>
    cases i with
    | zero => simp [bump]; omega
    | succ i =>
      have ht : i < t.length := by simpa using h
      simp only [bump, List.set_cons_succ, List.getD_cons_succ, List.sum_cons]
      have := ih ht
      simp only [bump] at this
      omega

lemma bump_getD (l : List ℕ) (i j : ℕ) :
    (bump l i).getD j 0 = l.getD j 0 + if i = j ∧ j < l.length then 1 else 0 := by
  unfold bump
  by_cases hj : j < l.length
  · by_cases hij : i = j
    · subst hij
      rw [getD_set_self _ _ hj]
      simp [hj]
    · rw [getD_set_ne _ _ hij]
      simp [hij]
  · have h1 : l.length ≤ j := by omega
    have h2 : (l.set i (l.getD i 0 + 1)).length ≤ j := by
      rw [List.length_set]; omega
    rw [getD_of_length_le _ h2, getD_of_length_le _ h1]
    simp [hj]

lemma bumpO_some (l : List ℕ) (i : ℕ) : bumpO l (some i) = bump l i := rfl

/-- The rounded luminance bucket is in range for 8-bit channels. -/
lemma luminance_le {r g b : ℕ} (hr : r ≤ 255) (hg : g ≤ 255) (hb : b ≤ 255) :
    luminance r g b ≤ 255 := by
  have h : 2126 * r + 7152 * g + 722 * b + 5000 < 256 * 10000 := by omega
  have := (Nat.div_lt_iff_lt_mul (by norm_num : 0 < 10000)).mpr h
  unfold luminance
  omega

/-- The exact-rational evaluation of `Math.round(0.2126*r + 0.7152*g + 0.0722*b)`
agrees with the natural-number closed form used by the embedding. -/
lemma lumReal_eq (r g b : ℕ) : lumReal r g b = (luminance r g b : ℤ) := by
  unfold lumReal jsRound luminance
  have h : (0.2126 : ℚ) * r + 0.7152 * g + 0.0722 * b + 1 / 2
      = ((2126 * r + 7152 * g + 722 * b + 5000 : ℕ) : ℚ) / ((10000 : ℕ) : ℚ) := by
    push_cast
    norm_num
    ring
  rw [h, Rat.floor_natCast_div_natCast]
  norm_cast

section Scan

variable {data : List ℕ} {w rate : ℕ}

lemma read_channels (n : ℕ) (hok : 4 * n + 2 < data.length)
    (hmax : ∀ v ∈ data, v ≤ 255) :
    ∃ r g b : ℕ, readR data n = some r ∧ readG data n = some g ∧
      readB data n = some b ∧ r ≤ 255 ∧ g ≤ 255 ∧ b ≤ 255 := by
  have h0 : 4 * n < data.length := by omega
  have h1 : 4 * n + 1 < data.length := by omega
  refine ⟨data[4 * n], data[4 * n + 1], data[4 * n + 2], ?_, ?_, ?_, ?_, ?_, ?_⟩
  · simp [readR, List.get?_eq_getElem?, List.getElem?_eq_getElem h0]
  · simp [readG, List.get?_eq_getElem?, List.getElem?_eq_getElem h1]
  · simp [readB, List.get?_eq_getElem?, List.getElem?_eq_getElem hok]
  · exact hmax _ (List.getElem_mem h0)
  · exact hmax _ (List.getElem_mem h1)
  · exact hmax _ (List.getElem_mem hok)

lemma scanStep_hist (a : Analysis) (n : ℕ) (hok : 4 * n + 2 < data.length)
    (hmax : ∀ v ∈ data, v ≤ 255)
    (hR : a.histR.length = 256) (hG : a.histG.length = 256)
    (hB : a.histB.length = 256) (hL : a.histLum.length = 256) :
    (scanStep data w rate a n).histR.length = 256 ∧
    (scanStep data w rate a n).histG.length = 256 ∧
    (scanStep data w rate a n).histB.length = 256 ∧
    (scanStep data w rate a n).histLum.length = 256 ∧
    (scanStep data w rate a n).histR.sum = a.histR.sum + 1 ∧
    (scanStep data w rate a n).histG.sum = a.histG.sum + 1 ∧
    (scanStep data w rate a n).histB.sum = a.histB.sum + 1 ∧
    (scanStep data w rate a n).histLum.sum = a.histLum.sum + 1 := by
  obtain ⟨r, g, b, hr, hg, hb, hr2, hg2, hb2⟩ := read_channels n hok hmax
  have hlum : luminance r g b ≤ 255 := luminance_le hr2 hg2 hb2
  simp only [scanStep, hr, hg, hb, lumOf, bumpO_some]
  refine ⟨?_, ?_, ?_, ?_, ?_, ?_, ?_, ?_⟩
  · rw [bump_length]; exact hR
  · rw [bump_length]; exact hG
  · rw [bump_length]; exact hB
  · rw [bump_length]; exact hL
  · exact bump_sum (by omega)
  · exact bump_sum (by omega)
  · exact bump_sum (by omega)
  · exact bump_sum (by omega)

lemma fold_hist (l : List ℕ) :
    ∀ a : Analysis, (∀ n ∈ l, 4 * n + 2 < data.length) → (∀ v ∈ data, v ≤ 255) →
    a.histR.length = 256 → a.histG.length = 256 → a.histB.length = 256 →
    a.histLum.length = 256 →
    ((l.foldl (scanStep data w rate) a).histR.sum = a.histR.sum + l.length ∧
     (l.foldl (scanStep data w rate) a).histG.sum = a.histG.sum + l.length ∧
     (l.foldl (scanStep data w rate) a).histB.sum = a.histB.sum + l.length ∧
     (l.foldl (scanStep data w rate) a).histLum.sum = a.histLum.sum + l.length ∧
     (l.foldl (scanStep data w rate) a).histLum.length = 256) := by
  induction l with
  | nil =>
    intro a _ _ hR hG hB hL
    simp only [List.foldl_nil, List.length_nil, Nat.add_zero, eq_self_iff_true,
      true_and]
    exact hL
  | cons n t ih =>
    intro a hok hmax hR hG hB hL
    have hstep := @scanStep_hist data w rate a n (hok n (by simp))
      hmax hR hG hB hL
    have hrest := ih (scanStep data w rate a n)
      (fun m hm => hok m (by simp [hm])) hmax hstep.1 hstep.2.1 hstep.2.2.1
      hstep.2.2.2.1
    simp only [List.foldl_cons, List.length_cons] at *
    refine ⟨?_, ?_, ?_, ?_, hrest.2.2.2.2⟩ <;> omega

end Scan

lemma initAnalysis_colorPoints (w : ℕ) : (initAnalysis w).colorPoints = [] := rfl

lemma initAnalysis_histR (w : ℕ) : (initAnalysis w).histR = List.replicate 256 0 := rfl

lemma initAnalysis_histG (w : ℕ) : (initAnalysis w).histG = List.replicate 256 0 := rfl

lemma initAnalysis_histB (w : ℕ) : (initAnalysis w).histB = List.replicate 256 0 := rfl

lemma initAnalysis_histLum (w : ℕ) : (initAnalysis w).histLum = List.replicate 256 0 := rfl

lemma replicate_zero_sum : (List.replicate 256 (0 : ℕ)).sum = 0 := by
  rw [List.sum_replicate]
  exact smul_zero 256

lemma replicate_zero_length : (List.replicate 256 (0 : ℕ)).length = 256 :=
  List.length_replicate ..

/-- C1: For every well-formed pixel buffer of width `W > 0` and height
`H > 0` (row-major RGBA, `4·W·H` bytes, 8-bit values), each of the four
256-bucket histograms produced by the analyzer sums to exactly `W·H` — every
pixel increments each histogram exactly once — and the rounded-luminance
bucket index always lies in `[0, 255]`. -/
theorem claim1_histogram_sums (data : List ℕ) (w h : ℕ)
    (hsize : data.length = 4 * (w * h)) (hmax : ∀ v ∈ data, v ≤ 255)
    (_hw : 0 < w) (_hh : 0 < h) :
    (calculateScopeData data w h).histLum.sum = w * h ∧
    (calculateScopeData data w h).histR.sum = w * h ∧
    (calculateScopeData data w h).histG.sum = w * h ∧
    (calculateScopeData data w h).histB.sum = w * h ∧
    (calculateScopeData data w h).histLum.length = 256 ∧
    (∀ r g b : ℕ, r ≤ 255 → g ≤ 255 → b ≤ 255 → luminance r g b ≤ 255) := by
  have hfold := @fold_hist data w (vectorSampleRate w h)
    (List.range (w * h)) (initAnalysis w)
    (fun n hn => by rw [hsize]; rw [List.mem_range] at hn; omega)
    hmax
    (by rw [initAnalysis_histR]; exact replicate_zero_length)
    (by rw [initAnalysis_histG]; exact replicate_zero_length)
    (by rw [initAnalysis_histB]; exact replicate_zero_length)
    (by rw [initAnalysis_histLum]; exact replicate_zero_length)
  unfold calculateScopeData
  rw [initAnalysis_histR, initAnalysis_histG, initAnalysis_histB,
    initAnalysis_histLum, replicate_zero_sum, List.length_range] at hfold
  simp only [Nat.zero_add] at hfold
  exact ⟨hfold.2.2.2.1, hfold.1, hfold.2.1, hfold.2.2.1, hfold.2.2.2.2,
    fun r g b hr hg hb => luminance_le hr hg hb⟩

/-- Witness for C1 at a concrete 1×1 buffer. -/
theorem claim1_histogram_sums_witness :
    ([10, 20, 30, 255] : List ℕ).length = 4 * (1 * 1) ∧
    (∀ v ∈ ([10, 20, 30, 255] : List ℕ), v ≤ 255) ∧
    (calculateScopeData [10, 20, 30, 255] 1 1).histLum.sum = 1 * 1 :=
  ⟨by decide, by decide,
    (claim1_histogram_sums [10, 20, 30, 255] 1 1 (by decide) (by decide)
      (by decide) (by decide)).1⟩

/-- With zero width or zero height the pixel loop never runs: the analyzer
returns the freshly initialised (empty) datasets. -/
lemma calculateScopeData_zero (data : List ℕ) (w h : ℕ) (h0 : w * h = 0) :
    calculateScopeData data w h = initAnalysis w := by
  unfold calculateScopeData
  rw [h0]
  rfl

set_option maxRecDepth 10000 in
/-- C2 counterexample: The claimed rejection does not happen.  At the
invalid input `width = height = 0` with an empty buffer, `analyze` runs the
normal path — it returns the ordinary (empty) datasets and still invokes all
four renderers, signalling nothing; and a mis-sized buffer (declared 1×2 but
holding only one pixel's bytes) is processed rather than rejected, leaving
the luminance histogram summing to 1 instead of `width*height = 2`. -/
theorem claim2_counterexample :
    (analyze [] 0 0).2 =
      [ScopeKind.waveform, ScopeKind.parade, ScopeKind.vectorscope, ScopeKind.histogram] ∧
    (analyze [] 0 0).1 = initAnalysis 0 ∧
    (calculateScopeData [100, 0, 0, 255] 1 2).histLum.sum = 1 :=
  ⟨rfl, rfl, by decide⟩

/-- C2 amended: The analyzer performs no input validation and never
rejects or skips a cycle: every input — including empty or mis-sized buffers
and zero dimensions — yields an ordinary `Analysis` (it is a total function,
so no fatal error reaches the caller) and all four renderers are invoked.
With zero width or height the datasets are simply empty because the pixel
loop does not run. -/
theorem claim2_no_validation (data : List ℕ) (w h : ℕ) (h0 : w * h = 0) :
    calculateScopeData data w h = initAnalysis w ∧
    (analyze data w h).2 = analyzeRenderers :=
  ⟨calculateScopeData_zero data w h h0, rfl⟩

/-- Witness for the amended C2 at `width = 0`, `height = 7`. -/
theorem claim2_no_validation_witness :
    0 * 7 = 0 ∧ calculateScopeData [] 0 7 = initAnalysis 0 :=
  ⟨rfl, (claim2_no_validation [] 0 7 rfl).1⟩

/-- C3: The analyzer is referentially transparent: invoked on an
identical buffer and identical dimensions it yields bit-identical derived
datasets (waveform columns, parade columns, colour points and histograms are
all fields of the returned `Analysis`); in the embedding it is a pure
function of exactly `(data, width, height)`. -/
theorem claim3_determinism (d₁ d₂ : List ℕ) (w₁ w₂ h₁ h₂ : ℕ)
    (hd : d₁ = d₂) (hw : w₁ = w₂) (hh : h₁ = h₂) :
    calculateScopeData d₁ w₁ h₁ = calculateScopeData d₂ w₂ h₂ := by
  subst hd
  subst hw
  subst hh
  rfl

/-- Witness for C3 at a concrete 1×1 buffer. -/
theorem claim3_determinism_witness :
    calculateScopeData [1, 2, 3, 4] 1 1 = calculateScopeData [1, 2, 3, 4] 1 1 :=
  claim3_determinism [1, 2, 3, 4] [1, 2, 3, 4] 1 1 1 1 rfl rfl rfl

/-- C4: The computed luminance equals `round(0.2126·r + 0.7152·g +
0.0722·b)` — the exact-rational evaluation of the source expression agrees
with the embedding's closed form for all channel values — and in particular
`luminance 255 255 255 = 255` and `luminance 0 0 0 = 0`. -/
theorem claim4_luminance_formula :
    (∀ r g b : ℕ, lumReal r g b = (luminance r g b : ℤ)) ∧
    luminance 255 255 255 = 255 ∧ luminance 0 0 0 = 0 :=
  ⟨lumReal_eq, by decide, by decide⟩

/-- C9 counterexample: With the waveform checkbox unticked the container
is hidden, yet the waveform renderer is still invoked during the cycle:
renderer invocation is unconditional and independent of the visibility
flags. -/
theorem claim9_counterexample :
    (toggleScope ⟨fun _ => false⟩ ScopeKind.waveform false).hidden
      ScopeKind.waveform = true ∧
    ScopeKind.waveform ∈ (analyze [] 1 0).2 :=
  ⟨rfl, by decide⟩

/-- C9 amended: A scope's visibility checkbox only toggles the
`hidden` CSS class on that scope's container; it does not control renderer
invocation: all four renderers are invoked every cycle regardless of the
flags, and the analyzer consults no visibility state. -/
theorem claim9_toggle_behavior :
    (∀ (ui : UIState) (s t : ScopeKind) (c : Bool),
      (toggleScope ui s c).hidden t = if t = s then !c else ui.hidden t) ∧
    (∀ (data : List ℕ) (w h : ℕ), (analyze data w h).2 = analyzeRenderers) ∧
    analyzeRenderers =
      [ScopeKind.waveform, ScopeKind.parade, ScopeKind.vectorscope, ScopeKind.histogram] :=
  ⟨fun _ _ _ _ => rfl, fun _ _ _ => rfl, rfl⟩

section ColorPoints

variable {data : List ℕ} {w rate : ℕ}

lemma scanStep_colorPoints (a : Analysis) (n : ℕ) :
    (scanStep data w rate a n).colorPoints =
      if n % rate = 0 then a.colorPoints ++ [samplePoint data n]
      else a.colorPoints := rfl

lemma fold_colorPoints (l : List ℕ) :
    ∀ a : Analysis,
    (l.foldl (scanStep data w rate) a).colorPoints =
      a.colorPoints ++
        (l.filter (fun n => decide (n % rate = 0))).map (samplePoint data) := by
  induction l with
  | nil => intro a; simp
  | cons n t ih =>
    intro a
    rw [List.foldl_cons, ih, List.filter_cons]
    by_cases h : n % rate = 0
    · rw [scanStep_colorPoints, if_pos h]
      simp [h, List.append_assoc]
    · rw [scanStep_colorPoints, if_neg h]
      simp [h]

end ColorPoints

/-- Division arithmetic behind the multiples count: appending one more index
adds a sample exactly when that index is a multiple of the stride. -/
lemma div_succ_arith (r N : ℕ) (hr : 0 < r) :
    (N + r) / r = (N + r - 1) / r + if N % r = 0 then 1 else 0 := by
  have hqs : r * (N / r) + N % r = N := Nat.div_add_mod N r
  have hlt : N % r < r := Nat.mod_lt N hr
  by_cases h : N % r = 0
  · have e1 : N + r = r - 1 + 1 + r * (N / r) := by omega
    have e2 : N + r - 1 = r - 1 + r * (N / r) := by omega
    rw [e2, e1, if_pos h]
    rw [Nat.add_mul_div_left _ _ hr, Nat.add_mul_div_left _ _ hr]
    rw [Nat.div_eq_of_lt (by omega : r - 1 < r)]
    have : (r - 1 + 1) / r = 1 := by
      rw [(by omega : r - 1 + 1 = r), Nat.div_self hr]
    omega
  · have e1 : N + r = N % r + r + r * (N / r) := by omega
    have e2 : N + r - 1 = N % r - 1 + r + r * (N / r) := by omega
    rw [e2, e1, if_neg h]
    rw [Nat.add_mul_div_left _ _ hr, Nat.add_mul_div_left _ _ hr]
    rw [Nat.add_div_right _ hr, Nat.add_div_right _ hr]
    rw [Nat.div_eq_of_lt hlt, Nat.div_eq_of_lt (by omega : N % r - 1 < r)]
    omega

/-- Number of multiples of `r` below `N`. -/
lemma range_filter_mod_length (r : ℕ) (hr : 0 < r) (N : ℕ) :
    ((List.range N).filter (fun n => decide (n % r = 0))).length =
      (N + r - 1) / r := by
  induction N with
  | zero => simp [Nat.div_eq_of_lt (show r - 1 < r by omega)]
  | succ N ih =>
    rw [List.range_succ, List.filter_append, List.length_append, ih]
    have harith := div_succ_arith r N hr
    have eN : N + 1 + r - 1 = N + r := by omega
    rw [eN]
    by_cases h : N % r = 0 <;> simp [h] at harith ⊢ <;> omega

/-- C5: The chroma sampling stride is `max(1, ⌊W·H/50000⌋)`; a pixel
contributes a colour-point tuple exactly when its flattened raster index is
divisible by the stride (the points are exactly the stride-multiples of the
scan, in order); and the sample count is within ±1 of `⌊W·H/stride⌋`. -/
theorem claim5_vectorscope_sampling (data : List ℕ) (w h : ℕ) :
    vectorSampleRate w h = max 1 (w * h / 50000) ∧
    (calculateScopeData data w h).colorPoints =
      ((List.range (w * h)).filter
        (fun n => decide (n % vectorSampleRate w h = 0))).map (samplePoint data) ∧
    w * h / vectorSampleRate w h ≤ (calculateScopeData data w h).colorPoints.length ∧
    (calculateScopeData data w h).colorPoints.length ≤
      w * h / vectorSampleRate w h + 1 := by
  have hr : 0 < vectorSampleRate w h := le_max_left 1 _
  have hchar : (calculateScopeData data w h).colorPoints =
      ((List.range (w * h)).filter
        (fun n => decide (n % vectorSampleRate w h = 0))).map (samplePoint data) := by
    unfold calculateScopeData
    rw [fold_colorPoints, initAnalysis_colorPoints, List.nil_append]
  have hlen : (calculateScopeData data w h).colorPoints.length =
      (w * h + vectorSampleRate w h - 1) / vectorSampleRate w h := by
    rw [hchar, List.length_map, range_filter_mod_length _ hr]
  refine ⟨rfl, hchar, ?_, ?_⟩
  · rw [hlen]
    exact Nat.div_le_div_right (by omega)
  · rw [hlen]
    calc (w * h + vectorSampleRate w h - 1) / vectorSampleRate w h
        ≤ (w * h + vectorSampleRate w h) / vectorSampleRate w h :=
          Nat.div_le_div_right (by omega)
      _ = w * h / vectorSampleRate w h + 1 := Nat.add_div_right _ hr

section Parade

variable {data : List ℕ} {w rate : ℕ}

lemma scanStep_rgbR (a : Analysis) (n : ℕ) :
    (scanStep data w rate a n).rgbR =
      if n % w / 3 < w / 3 then pushAt a.rgbR (n % w / 3) (readR data n)
      else a.rgbR := rfl

lemma scanStep_rgbG (a : Analysis) (n : ℕ) :
    (scanStep data w rate a n).rgbG =
      if n % w / 3 < w / 3 then pushAt a.rgbG (n % w / 3) (readG data n)
      else a.rgbG := rfl

lemma scanStep_rgbB (a : Analysis) (n : ℕ) :
    (scanStep data w rate a n).rgbB =
      if n % w / 3 < w / 3 then pushAt a.rgbB (n % w / 3) (readB data n)
      else a.rgbB := rfl

lemma fold_rgbR (l : List ℕ) :
    ∀ a : Analysis, a.rgbR.length = w / 3 →
    (l.foldl (scanStep data w rate) a).rgbR.length = w / 3 ∧
    ∀ j, j < w / 3 →
      (l.foldl (scanStep data w rate) a).rgbR.getD j [] =
        a.rgbR.getD j [] ++
          (l.filter (fun n => decide (n % w / 3 = j))).map (readR data) := by
  induction l with
  | nil =>
    intro a hl
    exact ⟨hl, fun j _ => by simp⟩
  | cons n t ih =>
    intro a hl
    have hstep : (scanStep data w rate a n).rgbR.length = w / 3 := by
      rw [scanStep_rgbR]
      split
      · rw [pushAt_length]; exact hl
      · exact hl
    obtain ⟨hlen, hcols⟩ := ih (scanStep data w rate a n) hstep
    refine ⟨by simpa using hlen, fun j hj => ?_⟩
    rw [List.foldl_cons, hcols j hj, List.filter_cons]
    by_cases h : n % w / 3 = j
    · rw [scanStep_rgbR, if_pos (h ▸ hj), h, getD_pushAt_self _ (hl ▸ hj)]
      simp [h, List.append_assoc]
    · rw [scanStep_rgbR]
      split
      · rw [getD_pushAt_ne _ h]
        simp [h]
      · simp [h]

lemma fold_rgbG (l : List ℕ) :
    ∀ a : Analysis, a.rgbG.length = w / 3 →
    (l.foldl (scanStep data w rate) a).rgbG.length = w / 3 ∧
    ∀ j, j < w / 3 →
      (l.foldl (scanStep data w rate) a).rgbG.getD j [] =
        a.rgbG.getD j [] ++
          (l.filter (fun n => decide (n % w / 3 = j))).map (readG data) := by
  induction l with
  | nil =>
    intro a hl
    exact ⟨hl, fun j _ => by simp⟩
  | cons n t ih =>
    intro a hl
    have hstep : (scanStep data w rate a n).rgbG.length = w / 3 := by
      rw [scanStep_rgbG]
      split
      · rw [pushAt_length]; exact hl
      · exact hl
    obtain ⟨hlen, hcols⟩ := ih (scanStep data w rate a n) hstep
    refine ⟨by simpa using hlen, fun j hj => ?_⟩
    rw [List.foldl_cons, hcols j hj, List.filter_cons]
    by_cases h : n % w / 3 = j
    · rw [scanStep_rgbG, if_pos (h ▸ hj), h, getD_pushAt_self _ (hl ▸ hj)]
      simp [h, List.append_assoc]
    · rw [scanStep_rgbG]
      split
      · rw [getD_pushAt_ne _ h]
        simp [h]
      · simp [h]

lemma fold_rgbB (l : List ℕ) :
    ∀ a : Analysis, a.rgbB.length = w / 3 →
    (l.foldl (scanStep data w rate) a).rgbB.length = w / 3 ∧
    ∀ j, j < w / 3 →
      (l.foldl (scanStep data w rate) a).rgbB.getD j [] =
        a.rgbB.getD j [] ++
          (l.filter (fun n => decide (n % w / 3 = j))).map (readB data) := by
  induction l with
  | nil =>
    intro a hl
    exact ⟨hl, fun j _ => by simp⟩
  | cons n t ih =>
    intro a hl
    have hstep : (scanStep data w rate a n).rgbB.length = w / 3 := by
      rw [scanStep_rgbB]
      split
      · rw [pushAt_length]; exact hl
      · exact hl
    obtain ⟨hlen, hcols⟩ := ih (scanStep data w rate a n) hstep
    refine ⟨by simpa using hlen, fun j hj => ?_⟩
    rw [List.foldl_cons, hcols j hj, List.filter_cons]
    by_cases h : n % w / 3 = j
    · rw [scanStep_rgbB, if_pos (h ▸ hj), h, getD_pushAt_self _ (hl ▸ hj)]
      simp [h, List.append_assoc]
    · rw [scanStep_rgbB]
      split
      · rw [getD_pushAt_ne _ h]
        simp [h]
      · simp [h]

end Parade

lemma initAnalysis_rgbR (w : ℕ) :
    (initAnalysis w).rgbR = List.replicate (w / 3) [] := rfl

lemma initAnalysis_rgbG (w : ℕ) :
    (initAnalysis w).rgbG = List.replicate (w / 3) [] := rfl

lemma initAnalysis_rgbB (w : ℕ) :
    (initAnalysis w).rgbB = List.replicate (w / 3) [] := rfl

/-- C6: Each of the three parade column sequences has length
`⌊W/3⌋`; a pixel at horizontal position `x = n % W` with `⌊x/3⌋ < ⌊W/3⌋`
contributes its raw channel byte to column `⌊x/3⌋` (each column is exactly
the scan-order list of the channel reads of its pixels); pixels with
`⌊x/3⌋ ≥ ⌊W/3⌋` appear in no column — they are dropped by the guard without
any error, the function being total. -/
theorem claim6_parade_columns (data : List ℕ) (w h : ℕ) :
    (calculateScopeData data w h).rgbR.length = w / 3 ∧
    (calculateScopeData data w h).rgbG.length = w / 3 ∧
    (calculateScopeData data w h).rgbB.length = w / 3 ∧
    ∀ j, j < w / 3 →
      (calculateScopeData data w h).rgbR.getD j [] =
        ((List.range (w * h)).filter
          (fun n => decide (n % w / 3 = j))).map (readR data) ∧
      (calculateScopeData data w h).rgbG.getD j [] =
        ((List.range (w * h)).filter
          (fun n => decide (n % w / 3 = j))).map (readG data) ∧
      (calculateScopeData data w h).rgbB.getD j [] =
        ((List.range (w * h)).filter
          (fun n => decide (n % w / 3 = j))).map (readB data) := by
  have hinitR : (initAnalysis w).rgbR.length = w / 3 := by
    rw [initAnalysis_rgbR, List.length_replicate]
  have hinitG : (initAnalysis w).rgbG.length = w / 3 := by
    rw [initAnalysis_rgbG, List.length_replicate]
  have hinitB : (initAnalysis w).rgbB.length = w / 3 := by
    rw [initAnalysis_rgbB, List.length_replicate]
  obtain ⟨hlR, hcR⟩ := @fold_rgbR data w (vectorSampleRate w h)
    (List.range (w * h)) (initAnalysis w) hinitR
  obtain ⟨hlG, hcG⟩ := @fold_rgbG data w (vectorSampleRate w h)
    (List.range (w * h)) (initAnalysis w) hinitG
  obtain ⟨hlB, hcB⟩ := @fold_rgbB data w (vectorSampleRate w h)
    (List.range (w * h)) (initAnalysis w) hinitB
  refine ⟨hlR, hlG, hlB, fun j hj => ⟨?_, ?_, ?_⟩⟩
  · rw [show (calculateScopeData data w h).rgbR =
        ((List.range (w * h)).foldl
          (scanStep data w (vectorSampleRate w h)) (initAnalysis w)).rgbR from rfl,
      hcR j hj, initAnalysis_rgbR, getD_replicate hj, List.nil_append]
  · rw [show (calculateScopeData data w h).rgbG =
        ((List.range (w * h)).foldl
          (scanStep data w (vectorSampleRate w h)) (initAnalysis w)).rgbG from rfl,
      hcG j hj, initAnalysis_rgbG, getD_replicate hj, List.nil_append]
  · rw [show (calculateScopeData data w h).rgbB =
        ((List.range (w * h)).foldl
          (scanStep data w (vectorSampleRate w h)) (initAnalysis w)).rgbB from rfl,
      hcB j hj, initAnalysis_rgbB, getD_replicate hj, List.nil_append]

/-- Witness for C6 on a concrete 4×1 buffer (width 4, one parade column):
column 0 collects the channel bytes of pixels `x = 0, 1, 2`; pixel `x = 3`
is dropped. -/
theorem claim6_parade_columns_witness :
    0 < 4 / 3 ∧
    (calculateScopeData
        [1, 2, 3, 255, 5, 6, 7, 255, 9, 10, 11, 255, 13, 14, 15, 255]
        4 1).rgbR.getD 0 [] = [some 1, some 5, some 9] := by
  have h := (claim6_parade_columns
    [1, 2, 3, 255, 5, 6, 7, 255, 9, 10, 11, 255, 13, 14, 15, 255]
    4 1).2.2.2 0 (by decide)
  refine ⟨by decide, ?_⟩
  rw [h.1]
  decide

lemma foldl_max_init (m : List ℕ) : ∀ a : ℕ, m.foldl max a = max a (m.foldr max 0) := by
  induction m with
  | nil => intro a; simp
  | cons v t ih =>
    intro a
    rw [List.foldl_cons, ih (max a v), List.foldr_cons, max_assoc]

/-- The inline maximum scan of the renderers equals `max 1 (max over all
cells)`. -/
lemma maxIntensity_eq (m : List ℕ) : maxIntensity m = max 1 (m.foldr max 0) := by
  have hfun : (fun (acc v : ℕ) => if acc < v then v else acc) = max := by
    funext acc v
    rcases le_or_lt v acc with h | h
    · rw [if_neg (by omega), max_eq_left h]
    · rw [if_pos h, max_eq_right (le_of_lt h)]
  unfold maxIntensity
  rw [hfun, foldl_max_init]

lemma maxIntensity_pos (m : List ℕ) : 0 < maxIntensity m := by
  rw [maxIntensity_eq]
  exact lt_of_lt_of_le Nat.zero_lt_one (le_max_left 1 _)

lemma colorize_fold_getD (m : List ℕ) (f : ℕ → Pix) :
    ∀ (idxs : List ℕ) (px : List Pix) (i : ℕ), i < px.length →
    (idxs.foldl (fun p j => if 0 < m.getD j 0 then p.set j (f j) else p)
        px).getD i defaultPix =
      if i ∈ idxs ∧ 0 < m.getD i 0 then f i else px.getD i defaultPix := by
  intro idxs
  induction idxs with
  | nil =>
    intro px i _
    simp
  | cons j t ih =>
    intro px i hi
    rw [List.foldl_cons]
    have hlen1 : (if 0 < m.getD j 0 then px.set j (f j) else px).length =
        px.length := by
      split
      · exact List.length_set ..
      · rfl
    rw [ih _ i (by omega)]
    by_cases hmem : i ∈ t ∧ 0 < m.getD i 0
    · rw [if_pos hmem, if_pos ⟨by simp [hmem.1], hmem.2⟩]
    · rw [if_neg hmem]
      by_cases hji : j = i
      · subst hji
        by_cases hc : 0 < m.getD j 0
        · rw [if_pos hc, getD_set_self _ _ hi, if_pos ⟨by simp, hc⟩]
        · rw [if_neg hc, if_neg (fun hcc => hc hcc.2)]
      · have hstep : (if 0 < m.getD j 0 then px.set j (f j) else px).getD i
            defaultPix = px.getD i defaultPix := by
          split
          · exact getD_set_ne _ _ hji
          · rfl
        rw [hstep, if_neg (by
          intro hcc
          rcases List.mem_cons.mp hcc.1 with hieq | hit
          · exact hji hieq.symm
          · exact hmem ⟨hit, hcc.2⟩)]

lemma getD_eq_zero_of_all_zero {m : List ℕ} (hz : ∀ v ∈ m, v = 0) (j : ℕ) :
    m.getD j 0 = 0 := by
  rcases lt_or_ge j m.length with hj | hj
  · rw [List.getD_eq_getElem?_getD, List.getElem?_eq_getElem hj]
    exact hz _ (List.getElem_mem hj)
  · exact getD_of_length_le _ hj

lemma colorize_fold_zero (m : List ℕ) (f : ℕ → Pix) (hz : ∀ v ∈ m, v = 0) :
    ∀ (idxs : List ℕ) (px : List Pix),
    idxs.foldl (fun p j => if 0 < m.getD j 0 then p.set j (f j) else p) px = px := by
  intro idxs
  induction idxs with
  | nil => intro px; rfl
  | cons j t ih =>
    intro px
    rw [List.foldl_cons, if_neg (by rw [getD_eq_zero_of_all_zero hz j]; omega), ih]

/-- C7: Renderer normalization (waveform and vectorscope): the inline
maximum scan equals `max(1, maximum over all cells)` — strictly positive even
for an all-zero map, so the division never divides by zero; every non-zero
cell is coloured through the fixed ramp at `min(1, (count/maxCount)·gain)`
with one constant gain (8 for the waveform, 10 for the vectorscope) applied
uniformly to every cell; and zero cells keep the background pixel (an
entirely empty map leaves the background untouched). -/
theorem claim7_normalization (m : List ℕ) (bg : List Pix) :
    maxIntensity m = max 1 (m.foldr max 0) ∧
    0 < maxIntensity m ∧
    (bg.length = m.length → ∀ i, i < m.length →
      (renderWaveformPixels m bg).getD i defaultPix =
        (if 0 < m.getD i 0
         then waveRamp (min 1 ((m.getD i 0 : ℚ) / (maxIntensity m : ℚ) * 8))
         else bg.getD i defaultPix) ∧
      (renderVectorscopePixels m bg).getD i defaultPix =
        (if 0 < m.getD i 0
         then vsRamp (min 1 ((m.getD i 0 : ℚ) / (maxIntensity m : ℚ) * 10))
         else bg.getD i defaultPix)) ∧
    ((∀ v ∈ m, v = 0) →
      renderWaveformPixels m bg = bg ∧ renderVectorscopePixels m bg = bg) := by
  refine ⟨maxIntensity_eq m, maxIntensity_pos m, fun hlen i hi => ⟨?_, ?_⟩,
    fun hz => ⟨?_, ?_⟩⟩
  · unfold renderWaveformPixels
    rw [colorize_fold_getD m _ (List.range m.length) bg i (hlen ▸ hi)]
    simp [List.mem_range, hi]
  · unfold renderVectorscopePixels
    rw [colorize_fold_getD m _ (List.range m.length) bg i (hlen ▸ hi)]
    simp [List.mem_range, hi]
  · exact colorize_fold_zero m _ hz (List.range m.length) bg
  · exact colorize_fold_zero m _ hz (List.range m.length) bg

/-- Witness for C7 on the concrete map `[0, 2]`: cell 1 is non-zero, so it
is coloured at full intensity `min 1 ((2/2)·8) = 1`; cell 0 keeps the
background. -/
theorem claim7_normalization_witness :
    ([defaultPix, defaultPix] : List Pix).length = ([0, 2] : List ℕ).length ∧
    (1 : ℕ) < ([0, 2] : List ℕ).length ∧
    (renderWaveformPixels [0, 2] [defaultPix, defaultPix]).getD 1 defaultPix =
      (if 0 < ([0, 2] : List ℕ).getD 1 0
       then waveRamp (min 1 ((([0, 2] : List ℕ).getD 1 0 : ℚ) /
         (maxIntensity [0, 2] : ℚ) * 8))
       else ([defaultPix, defaultPix] : List Pix).getD 1 defaultPix) :=
  ⟨rfl, by decide,
    ((claim7_normalization [0, 2] [defaultPix, defaultPix]).2.2.1 rfl 1
      (by decide)).1⟩

/-- C10: For every column index `col < cols`, luminance (or channel)
value `v ≤ 255`, and canvas dimensions `cw ≥ 1`, `ch ≥ 1`, the plotted
coordinates `x = ⌊(col/cols)·cw⌋` and `y = ⌊ch − 1 − (v/255)·(ch − 1)⌋` lie
within `[0, cw)` and `[0, ch)`, hence the bounds guard of the waveform and
parade plotting loops always accepts the point. -/
theorem claim10_plot_bounds (col cols cw ch v : ℕ)
    (hcol : col < cols) (hv : v ≤ 255) (hcw : 1 ≤ cw) (hch : 1 ≤ ch) :
    0 ≤ plotX col cols cw ∧ plotX col cols cw < (cw : ℤ) ∧
    0 ≤ plotY v ch ∧ plotY v ch < (ch : ℤ) ∧
    plotGuard (plotX col cols cw) (plotY v ch) cw ch = true := by
  have hcolsQ : (0 : ℚ) < (cols : ℚ) := by
    have : 0 < cols := by omega
    exact_mod_cast this
  have hcwQ : (0 : ℚ) < (cw : ℚ) := by exact_mod_cast hcw
  have hchQ : (1 : ℚ) ≤ (ch : ℚ) := by exact_mod_cast hch
  have hx0 : 0 ≤ plotX col cols cw := by
    rw [plotX, Int.le_floor]
    push_cast
    positivity
  have hx1 : plotX col cols cw < (cw : ℤ) := by
    rw [plotX, Int.floor_lt]
    push_cast
    have hlt : (col : ℚ) / (cols : ℚ) < 1 := by
      rw [div_lt_one hcolsQ]
      exact_mod_cast hcol
    calc (col : ℚ) / (cols : ℚ) * cw < 1 * cw :=
          mul_lt_mul_of_pos_right hlt hcwQ
      _ = cw := one_mul _
  have hvQ : (v : ℚ) / 255 ≤ 1 := by
    rw [div_le_one (by norm_num : (0 : ℚ) < 255)]
    exact_mod_cast hv
  have hvQ0 : 0 ≤ (v : ℚ) / 255 := by positivity
  have hy0 : 0 ≤ plotY v ch := by
    rw [plotY, Int.le_floor]
    push_cast
    have := mul_le_mul_of_nonneg_right hvQ (by linarith : (0 : ℚ) ≤ (ch : ℚ) - 1)
    linarith
  have hy1 : plotY v ch < (ch : ℤ) := by
    rw [plotY, Int.floor_lt]
    push_cast
    have := mul_nonneg hvQ0 (by linarith : (0 : ℚ) ≤ (ch : ℚ) - 1)
    linarith
  refine ⟨hx0, hx1, hy0, hy1, ?_⟩
  simp only [plotGuard, Bool.and_eq_true, decide_eq_true_eq]
  exact ⟨⟨⟨hy0, hy1⟩, hx0⟩, hx1⟩

/-- Witness for C10 at `col = 0` of 1 column, value 0, 1×1 canvas. -/
theorem claim10_plot_bounds_witness :
    (0 : ℕ) < 1 ∧ (0 : ℕ) ≤ 255 ∧ (1 : ℕ) ≤ 1 ∧
    plotGuard (plotX 0 1 1) (plotY 0 1) 1 1 = true :=
  ⟨by decide, by decide, by decide,
    (claim10_plot_bounds 0 1 1 1 0 (by decide) (by decide) (by decide)
      (by decide)).2.2.2.2⟩

lemma linIndexInt_inj {s : ℕ} {pX pY : ℤ} {x y : ℕ}
    (hx : x < s) (hy : y < s)
    (hpX0 : 0 ≤ pX) (hpX1 : pX < (s : ℤ)) (hpY0 : 0 ≤ pY) (hpY1 : pY < (s : ℤ))
    (h : pY * (s : ℤ) + pX = (y : ℤ) * (s : ℤ) + (x : ℤ)) :
    pX = (x : ℤ) ∧ pY = (y : ℤ) := by
  have he : (x : ℤ) - pX = (s : ℤ) * (pY - (y : ℤ)) := by linear_combination -h
  have habs : |(x : ℤ) - pX| < (s : ℤ) := by
    rw [abs_lt]
    omega
  have hzero : (x : ℤ) - pX = 0 :=
    Int.eq_zero_of_abs_lt_dvd ⟨pY - (y : ℤ), he⟩ habs
  have hsne : (s : ℤ) ≠ 0 := by omega
  have hy0 : pY - (y : ℤ) = 0 := by
    rcases mul_eq_zero.mp (by omega : (s : ℤ) * (pY - (y : ℤ)) = 0) with hc | hc
    · exact absurd hc hsne
    · exact hc
  omega

lemma cell_lt_total {s x y : ℕ} (hx : x < s) (hy : y < s) : y * s + x < s * s := by
  calc y * s + x < y * s + s := by omega
    _ = (y + 1) * s := by ring
    _ ≤ s * s := Nat.mul_le_mul_right s (by omega)

lemma stampCell_length (s : ℕ) (m : List ℕ) (pX pY : ℤ) :
    (stampCell s m pX pY).length = m.length := by
  unfold stampCell
  split
  · exact bump_length ..
  · rfl

lemma stampCell_getD {s : ℕ} (m : List ℕ) (pX pY : ℤ) (x y : ℕ)
    (hm : m.length = s * s) (hx : x < s) (hy : y < s) :
    (stampCell s m pX pY).getD (y * s + x) 0 =
      m.getD (y * s + x) 0 + if pX = (x : ℤ) ∧ pY = (y : ℤ) then 1 else 0 := by
  unfold stampCell
  by_cases hb : 0 ≤ pX ∧ pX < (s : ℤ) ∧ 0 ≤ pY ∧ pY < (s : ℤ)
  · rw [if_pos hb]
    obtain ⟨hb1, hb2, hb3, hb4⟩ := hb
    have hnn : 0 ≤ pY * (s : ℤ) + pX := by
      have := mul_nonneg hb3 (by omega : (0 : ℤ) ≤ (s : ℤ))
      omega
    by_cases heq : pX = (x : ℤ) ∧ pY = (y : ℤ)
    · obtain ⟨h1, h2⟩ := heq
      have hidx : (pY * (s : ℤ) + pX).toNat = y * s + x := by
        rw [h1, h2]
        have : (y : ℤ) * (s : ℤ) + (x : ℤ) = ((y * s + x : ℕ) : ℤ) := by
          push_cast
          ring
        rw [this, Int.toNat_natCast]
      rw [hidx, bump_getD, if_pos ⟨rfl, hm ▸ cell_lt_total hx hy⟩,
        if_pos ⟨h1, h2⟩]
    · have hidx : (pY * (s : ℤ) + pX).toNat ≠ y * s + x := by
        intro hc
        have hcz : pY * (s : ℤ) + pX = (y : ℤ) * (s : ℤ) + (x : ℤ) := by
          have := Int.toNat_of_nonneg hnn
          rw [hc] at this
          push_cast at this
          linarith
        exact heq (linIndexInt_inj hx hy hb1 hb2 hb3 hb4 hcz)
      rw [bump_getD, if_neg (fun hc => hidx hc.1), if_neg heq]
  · rw [if_neg hb]
    have hne : ¬(pX = (x : ℤ) ∧ pY = (y : ℤ)) := by
      rintro ⟨rfl, rfl⟩
      exact hb ⟨by positivity, by exact_mod_cast hx, by positivity,
        by exact_mod_cast hy⟩
    rw [if_neg hne]
    omega

lemma stampFold_getD {s : ℕ} (px py : ℤ) (x y : ℕ) (hx : x < s) (hy : y < s) :
    ∀ (offs : List (ℤ × ℤ)) (m : List ℕ), m.length = s * s →
    (offs.foldl (fun mm o => stampCell s mm (px + o.2) (py + o.1)) m).getD
        (y * s + x) 0 =
      m.getD (y * s + x) 0 +
        offs.countP (fun o => decide (px + o.2 = (x : ℤ) ∧ py + o.1 = (y : ℤ))) := by
  intro offs
  induction offs with
  | nil =>
    intro m _
    simp
  | cons o t ih =>
    intro m hm
    have hlen : (stampCell s m (px + o.2) (py + o.1)).length = s * s := by
      rw [stampCell_length]
      exact hm
    rw [List.foldl_cons, ih _ hlen, stampCell_getD m _ _ x y hm hx hy,
      List.countP_cons]
    by_cases h : px + o.2 = (x : ℤ) ∧ py + o.1 = (y : ℤ) <;> simp [h] <;> omega

set_option maxHeartbeats 4000000 in
lemma stampOffsets_countP (px py : ℤ) (x y : ℕ) :
    stampOffsets.countP
        (fun o => decide (px + o.2 = (x : ℤ) ∧ py + o.1 = (y : ℤ))) =
      if px - 1 ≤ (x : ℤ) ∧ (x : ℤ) ≤ px + 1 ∧ py - 1 ≤ (y : ℤ) ∧
          (y : ℤ) ≤ py + 1
      then 1 else 0 := by
  simp only [stampOffsets, List.countP_cons, List.countP_nil,
    decide_eq_true_eq]
  split_ifs <;> omega

/-- C8: For a colour point with chroma `(cb, cr)`, the vectorscope
renderer computes the plot position `x = center + ((cb−128)/128)·radius`,
`y = center − ((cr−128)/128)·radius` (Y inverted), and stamps the point into
the full 3×3 neighbourhood of `(⌊x⌋, ⌊y⌋)`: every in-bounds cell whose
coordinates are within ±1 of the floored position is incremented by exactly
one, and every other cell is unchanged. -/
theorem claim8_vectorscope_stamp (size : ℕ) (m : List ℕ) (cb cr : ℚ)
    (r g b : Option ℕ) (x y : ℕ) (hm : m.length = size * size)
    (hx : x < size) (hy : y < size) :
    vsPx size cb = ⌊vsCenter size + ((cb - 128) / 128) * vsRadius size⌋ ∧
    vsPy size cr = ⌊vsCenter size - ((cr - 128) / 128) * vsRadius size⌋ ∧
    (stampPoint size m ⟨some cb, some cr, r, g, b⟩).getD (y * size + x) 0 =
      m.getD (y * size + x) 0 +
        (if vsPx size cb - 1 ≤ (x : ℤ) ∧ (x : ℤ) ≤ vsPx size cb + 1 ∧
            vsPy size cr - 1 ≤ (y : ℤ) ∧ (y : ℤ) ≤ vsPy size cr + 1
         then 1 else 0) := by
  refine ⟨rfl, rfl, ?_⟩
  show (stampOffsets.foldl
      (fun mm o => stampCell size mm (vsPx size cb + o.2) (vsPy size cr + o.1))
      m).getD (y * size + x) 0 = _
  rw [stampFold_getD (vsPx size cb) (vsPy size cr) x y hx hy stampOffsets m hm,
    stampOffsets_countP]

/-- Witness for C8: an 8×8 map, neutral chroma `(128, 128)` plots at the
centre cell `(4, 4)`, which is incremented from 0 to 1. -/
theorem claim8_vectorscope_stamp_witness :
    (List.replicate 64 (0 : ℕ)).length = 8 * 8 ∧ (4 : ℕ) < 8 ∧
    (stampPoint 8 (List.replicate 64 0)
        ⟨some 128, some 128, none, none, none⟩).getD (4 * 8 + 4) 0 =
      (List.replicate 64 (0 : ℕ)).getD (4 * 8 + 4) 0 +
        (if vsPx 8 128 - 1 ≤ (4 : ℤ) ∧ (4 : ℤ) ≤ vsPx 8 128 + 1 ∧
            vsPy 8 128 - 1 ≤ (4 : ℤ) ∧ (4 : ℤ) ≤ vsPy 8 128 + 1
         then 1 else 0) :=
  ⟨by decide, by decide,
    (claim8_vectorscope_stamp 8 (List.replicate 64 0) 128 128 none none none
      4 4 (by decide) (by decide) (by decide)).2.2⟩

end AnyScope
